import Mathlib

/-!
Verification of the sMC annealing layer of perses against its specification.

The development shallowly embeds the Python sources:
  * `src/perses/dispersed/utils.py` — diagnostics (`ESS`, `CESS`), the
    multinomial resampler, and the `LocallyOptimalAnnealing` actor;
  * `src/perses/dispersed/smc.py` — the `SequentialMonteCarlo` controller
    (input validation, `_resample`, `binary_search`);
  * `src/perses/annihilation/lambda_protocol.py` — `LambdaProtocol`
    construction-time validation.

Numpy float arrays are modelled as `List ℝ`; numpy scalar kernels
(`np.exp`, `scipy.special.logsumexp`, `np.dot`, …) become the corresponding
real-number operations.  Randomness (`np.random.choice`) is modelled by
threading an explicit stream of uniform draws and inverting the categorical
CDF, with the final index clamped into range exactly as numpy clamps its
`searchsorted` result.  The opaque OpenMM simulation state is a type
parameter `Config`; energy evaluation and dynamics propagation are
function-valued parameters returning `Option` values, a `none` standing for
a raised exception in the Python collaborator.
-/

namespace Perses

noncomputable section

/-- Elementwise `np.dot` of two equal-length 1-D arrays (the sources only
apply it to arrays of one shape). -/
def listDot (x y : List ℝ) : ℝ := (List.zipWith (fun a b => a * b) x y).sum

/-- Elementwise difference of two numpy arrays, as in `new_rps - current_rps`. -/
def listSub (x y : List ℝ) : List ℝ := List.zipWith (fun a b => a - b) x y

/-- Elementwise sum of two numpy arrays, as in `np.add(cumulative_works, incremental_works)`. -/
def listAdd (x y : List ℝ) : List ℝ := List.zipWith (fun a b => a + b) x y

/-- The scipy `logsumexp` kernel: `log (Σ exp xᵢ)`. -/
def logsumexp (x : List ℝ) : ℝ := Real.log ((x.map Real.exp).sum)

/-- The stabilized weight normalization shared by `multinomial_resample` and
`ESS` in `utils.py`: `np.exp (-works - logsumexp (-works))`. -/
def normalized_weights (works : List ℝ) : List ℝ :=
  works.map (fun w => Real.exp (-w - logsumexp (works.map (fun v => -v))))

/-- The softmax of the negated works written as the specification words it:
`exp (-wᵢ) / Σ exp (-wⱼ)`, with no log-sum-exp stabilization. -/
def softmax_neg (works : List ℝ) : List ℝ :=
  works.map (fun w => Real.exp (-w) / (works.map (fun v => Real.exp (-v))).sum)

/-- `ESS` from `utils.py` lines 125-143: prior weights normalized by the
stabilized softmax, incremental weights left unnormalized, then
`dot(w, v)² / dot(w², v²)`.  The Python body contains no validation and no
raise statement. -/
def ESS (works_prev works_incremental : List ℝ) : ℝ :=
  let prev_weights_normalized := normalized_weights works_prev
  let incremental_weights_unnormalized := works_incremental.map (fun w => Real.exp (-w))
  listDot prev_weights_normalized incremental_weights_unnormalized ^ 2 /
    listDot (prev_weights_normalized.map (fun a => a ^ 2))
      (incremental_weights_unnormalized.map (fun a => a ^ 2))

/-- `CESS` from `utils.py` lines 145-165: prior weights normalized by the
explicit quotient against `exp (logsumexp (-works_prev))`, then
`N · dot(w, v)² / dot(w, v²)`.  No validation, no raise statement. -/
def CESS (works_prev works_incremental : List ℝ) : ℝ :=
  let prev_weights_normalization := Real.exp (logsumexp (works_prev.map (fun v => -v)))
  let prev_weights_normalized := works_prev.map (fun w => Real.exp (-w) / prev_weights_normalization)
  let incremental_weights_unnormalized := works_incremental.map (fun w => Real.exp (-w))
  (prev_weights_normalized.length : ℝ) *
    listDot prev_weights_normalized incremental_weights_unnormalized ^ 2 /
    listDot prev_weights_normalized (incremental_weights_unnormalized.map (fun a => a ^ 2))

/-- `np.average` of a 1-D array. -/
def npMean (x : List ℝ) : ℝ := x.sum / x.length

/-- Inverse-CDF lookup of a uniform draw `u` in a weight list: the index of
the first prefix of weights whose running sum exceeds `u` (numpy's
`cdf.searchsorted(u, side='right')`). -/
def searchsorted_index (weights : List ℝ) (u : ℝ) : ℕ :=
  match weights with
  | [] => 0
  | w :: rest => if u < w then 0 else searchsorted_index rest (u - w) + 1

/-- One draw of `np.random.choice(len(weights), p = weights)`: invert the
categorical CDF at the uniform draw `u` and clamp into `[0, len)` the way
numpy clips its `searchsorted` result. -/
def np_random_choice (weights : List ℝ) (u : ℝ) : ℕ :=
  min (searchsorted_index weights u) (weights.length - 1)

/-- `multinomial_resample` from `utils.py` lines 101-123, with the
i.i.d. uniform draws behind `np.random.choice` made explicit as `uniforms`.
Weights are the stabilized softmax of the negated total works; the returned
works are the plain average of `total_works` repeated `num_resamples`
times.  The body performs no finiteness validation. -/
def multinomial_resample (total_works : List ℝ) (num_resamples : ℕ)
    (uniforms : ℕ → ℝ) : List ℝ × List ℕ :=
  let weights := normalized_weights total_works
  let resampled_indices := (List.range num_resamples).map (fun j => np_random_choice weights (uniforms j))
  let resampled_works := List.replicate num_resamples (npMean total_works)
  (resampled_works, resampled_indices)

lemma sum_exp_pos (x : List ℝ) (h : x ≠ []) : 0 < (x.map Real.exp).sum := by
  apply List.sum_pos
  · intro a ha
    obtain ⟨b, _, rfl⟩ := List.mem_map.mp ha
    exact Real.exp_pos _
  · simpa using h

lemma normalized_weights_eq_softmax_neg (works : List ℝ) (h : works ≠ []) :
    normalized_weights works = softmax_neg works := by
  have hpos : 0 < ((works.map (fun v => Real.exp (-v))).sum) := by
    have := sum_exp_pos (works.map (fun v => -v)) (by simpa using h)
    simpa [List.map_map, Function.comp] using this
  unfold normalized_weights softmax_neg logsumexp
  rw [List.map_map]
  have hfun : (fun w : ℝ =>
      Real.exp (-w - Real.log ((works.map (Real.exp ∘ fun v => -v)).sum)))
      = fun w : ℝ => Real.exp (-w) / (works.map (fun v => Real.exp (-v))).sum := by
    funext w
    have hsame : (works.map (Real.exp ∘ fun v => -v)) = works.map (fun v => Real.exp (-v)) := rfl
    rw [hsame, Real.exp_sub, Real.exp_log hpos]
  rw [hfun]

lemma listDot_replicate (n : ℕ) (a b : ℝ) :
    listDot (List.replicate n a) (List.replicate n b) = n * (a * b) := by
  induction n with
  | zero => simp [listDot]
  | succ k ih =>
    simp only [listDot, List.replicate_succ, List.zipWith_cons_cons, List.sum_cons] at *
    rw [ih]
    push_cast
    ring

/-- C2 counterexample: the claim "for every work array w of length N,
effectiveSampleSize(w, zeros) equals N" fails on the code at the concrete
prior-work array `[0, log 2]` of length 2: `ESS` returns `9/5`, not `2`. -/
theorem ESS_zero_incremental_counterexample :
    ESS [0, Real.log 2] [0, 0] ≠ 2 := by
  have hS : (([(0:ℝ), Real.log 2].map (fun v => -v)).map Real.exp).sum = 3 / 2 := by
    have h2 : Real.exp (Real.log 2) = 2 := Real.exp_log (by norm_num)
    simp [Real.exp_neg, h2]
    norm_num
  have e1 : Real.exp (-Real.log ((3:ℝ) / 2)) = 2 / 3 := by
    rw [Real.exp_neg, Real.exp_log (by norm_num)]
    norm_num
  have e2 : Real.exp (-Real.log 2 - Real.log (3 / 2)) = 1 / 3 := by
    have hm : Real.log 2 + Real.log (3 / 2) = Real.log 3 := by
      rw [← Real.log_mul (by norm_num) (by norm_num)]
      norm_num
    have harg : -Real.log 2 - Real.log (3 / 2) = -Real.log 3 := by linarith
    rw [harg, Real.exp_neg, Real.exp_log (by norm_num)]
    norm_num
  unfold ESS normalized_weights logsumexp
  rw [hS]
  simp [listDot, e1, e2]
  norm_num

/-- C2 amended: zero incremental work yields the full effective sample size
N only when the prior work array is constant (for example right after a
resampling event); for a constant prior-work array of any positive length
N, `ESS` with zero incremental works returns exactly N. -/
theorem ESS_constant_prior_full (c : ℝ) (n : ℕ) (h : 0 < n) :
    ESS (List.replicate n c) (List.replicate n 0) = n := by
  have hn : (n : ℝ) ≠ 0 := Nat.cast_ne_zero.mpr h.ne'
  have hSpos : (0:ℝ) < n * Real.exp (-c) :=
    mul_pos (by exact_mod_cast h) (Real.exp_pos _)
  have hsum : ((((List.replicate n c).map (fun v => -v)).map Real.exp).sum)
      = n * Real.exp (-c) := by
    simp [List.map_replicate, List.sum_replicate, nsmul_eq_mul]
  have hweight : Real.exp (-c - Real.log (n * Real.exp (-c))) = 1 / n := by
    rw [Real.exp_sub, Real.exp_log hSpos]
    field_simp
    ring
  unfold ESS normalized_weights logsumexp
  rw [hsum]
  simp only [List.map_replicate, hweight, neg_zero, Real.exp_zero]
  rw [listDot_replicate, listDot_replicate]
  field_simp
  ring

/-- C2 amended-claim witness at N = 1. -/
theorem ESS_constant_prior_full_witness :
    0 < 1 ∧ ESS (List.replicate 1 (0:ℝ)) (List.replicate 1 0) = ((1:ℕ) : ℝ) :=
  ⟨Nat.one_pos, ESS_constant_prior_full 0 1 Nat.one_pos⟩

/-- C4 counterexample: `ESS` contains no emptiness or length validation and
raises nothing — on the empty input pair it runs to completion and returns
the junk quotient `0 / 0` (`nan` in numpy, `0` in the real-number
embedding), so no `DiagnosticError` is raised and a value is returned. -/
theorem ESS_empty_returns_value : ESS [] [] = 0 := by
  simp [ESS, normalized_weights, listDot]

/-- C4 amended: the diagnostics perform no input validation — `CESS` on the
empty input pair likewise runs to completion and returns the junk value
`0 · 0 / 0 = 0` instead of raising `DiagnosticError` (an exception class
that appears nowhere in the code). -/
theorem CESS_empty_returns_value : CESS [] [] = 0 := by
  simp [CESS, listDot]

/-- C5: `multinomial_resample` returns (a) the arithmetic mean of
`total_works` repeated `num_resamples` times as the resampled works, (b)
draws its indices from the stabilized softmax of the negated total works,
which coincides with the specification's `softmax(-totalWork)`, and (c)
every returned index lies in `[0, len total_works)`. -/
theorem multinomial_resample_spec (total_works : List ℝ) (num_resamples : ℕ)
    (uniforms : ℕ → ℝ) (h : total_works ≠ []) :
    (multinomial_resample total_works num_resamples uniforms).1
        = List.replicate num_resamples (total_works.sum / total_works.length)
    ∧ normalized_weights total_works = softmax_neg total_works
    ∧ ∀ i ∈ (multinomial_resample total_works num_resamples uniforms).2,
        i < total_works.length := by
  refine ⟨rfl, normalized_weights_eq_softmax_neg _ h, ?_⟩
  intro i hi
  have hlen : (normalized_weights total_works).length = total_works.length := by
    simp [normalized_weights]
  have hpos : 0 < total_works.length := List.length_pos.mpr h
  simp only [multinomial_resample, List.mem_map, List.mem_range] at hi
  obtain ⟨j, _, rfl⟩ := hi
  calc np_random_choice (normalized_weights total_works) (uniforms j)
      ≤ (normalized_weights total_works).length - 1 := min_le_right _ _
    _ < total_works.length := by
        rw [hlen]
        exact Nat.sub_lt hpos Nat.one_pos

/-- C5 witness at the one-particle input `[0]` with a single resample. -/
theorem multinomial_resample_spec_witness :
    ([(0:ℝ)] ≠ ([] : List ℝ))
    ∧ ((multinomial_resample [(0:ℝ)] 1 (fun _ => 0)).1
          = List.replicate 1 (([(0:ℝ)].sum) / ([(0:ℝ)].length))
      ∧ normalized_weights [(0:ℝ)] = softmax_neg [(0:ℝ)]
      ∧ ∀ i ∈ (multinomial_resample [(0:ℝ)] 1 (fun _ => 0)).2, i < ([(0:ℝ)]).length) :=
  ⟨by simp, multinomial_resample_spec [(0:ℝ)] 1 (fun _ => 0) (by simp)⟩

/-!
LocallyOptimalAnnealing (`utils.py` lines 475-675).  The OpenMM context is
abstracted as a `Config` carrying positions and velocities; the engine
operations below are the collaborator calls the `anneal` loop makes.  A
`none` result models the operation raising an exception.  Wall-clock timer
entries are abstracted to `0` (the timer array is allocated as
`np.zeros(len(lambdas) - 1)` and real time is outside the embedding);
trajectory saving (`noneq_trajectory_filename`) is an I/O side channel and
is omitted, which is the `None`-filename path of the source.
-/

/-- The collaborator operations `anneal` uses: `potential lam x` is the
context's potential energy with the alchemical parameters set to `lam`
(`context.getState(getEnergy=True).getPotentialEnergy()`), `stepDynamics
lam x` is `integrator.step` with the context at `lam`, `rethermalizeVel` is
`context.setVelocitiesToTemperature`, and `initialPropagate lam x` is the
initial-propagation block (apply positions, draw fresh velocities,
`integrator.step`) at the starting lambda. -/
structure AnnealEngine (Config : Type) where
  beta : ℝ
  potential : ℝ → Config → Option ℝ
  stepDynamics : ℝ → Config → Option Config
  rethermalizeVel : Config → Config
  initialPropagate : ℝ → Config → Option Config

/-- Return value of `LocallyOptimalAnnealing.anneal`: either the fault
triple `(e, None, None)` produced by the loop's `except` clause, or the
result triple `(incremental_work, sampler_state | None, timer)`. -/
inductive AnnealReturn (Config : Type) where
  | fault : AnnealReturn Config
  | result (incremental_work : List ℝ) (final_state : Option Config)
      (timer : Option (List ℝ)) : AnnealReturn Config

/-- `compute_incremental_work` (`utils.py` lines 657-675): evaluate
`beta * U` on the *current, un-propagated* configuration, update the
alchemical state to the new lambda, evaluate `beta * U` again on the same
configuration, and return the difference. -/
def compute_incremental_work {Config : Type} (E : AnnealEngine Config)
    (lam_old lam_new : ℝ) (x : Config) : Option ℝ :=
  match E.potential lam_old x with
  | none => none
  | some old_e =>
    match E.potential lam_new x with
    | none => none
    | some new_e => some (E.beta * new_e - E.beta * old_e)

/-- The per-lambda loop of `anneal` (`utils.py` lines 602-616): for each
lambda after the first, compute the incremental work, then propagate under
the new lambda, optionally rethermalizing.  A `none` anywhere models the
`try` block raising. -/
def annealSteps {Config : Type} (E : AnnealEngine Config) (rethermalize : Bool) :
    ℝ → Config → List ℝ → Option (List ℝ × Config)
  | _, x, [] => some ([], x)
  | lam, x, lam' :: rest =>
    match compute_incremental_work E lam lam' x with
    | none => none
    | some w =>
      match E.stepDynamics lam' x with
      | none => none
      | some x' =>
        match annealSteps E rethermalize lam' (if rethermalize then E.rethermalizeVel x' else x') rest with
        | none => none
        | some (ws, xf) => some (w :: ws, xf)

/-- `LocallyOptimalAnnealing.anneal` (`utils.py` lines 541-634).  The outer
`none` models an exception escaping the call (empty lambda schedule, or the
initial propagation — which the source runs *outside* the `try` block —
raising); a loop failure is caught and returned as the fault value. -/
def anneal {Config : Type} (E : AnnealEngine Config) (sampler_state : Config)
    (lambdas : List ℝ)
    (return_sampler_state rethermalize initial_propagation : Bool) :
    Option (AnnealReturn Config) :=
  match lambdas with
  | [] => none
  | lam0 :: rest =>
    match (if initial_propagation then E.initialPropagate lam0 sampler_state else some sampler_state) with
    | none => none
    | some x0 =>
      some (match annealSteps E rethermalize lam0 x0 rest with
        | none => AnnealReturn.fault
        | some (ws, xf) =>
          AnnealReturn.result ws (if return_sampler_state then some xf else none)
            (some (List.replicate rest.length 0)))

/-- A never-raising simulation engine built from total collaborator
functions, used to state what `anneal` computes on the success path. -/
def totalEngine {Config : Type} (beta : ℝ) (u : ℝ → Config → ℝ)
    (st : ℝ → Config → Config) (rv : Config → Config)
    (ip : ℝ → Config → Config) : AnnealEngine Config :=
  ⟨beta, fun lam x => some (u lam x), fun lam x => some (st lam x), rv,
    fun lam x => some (ip lam x)⟩

/-- The incremental-work schedule exactly as the specification words it:
for each subsequent lambda, `β · (U(x; λ_next) − U(x; λ_cur))` evaluated on
the same configuration `x` *before* it is propagated under the new lambda;
the configuration is then propagated (and optionally rethermalized) and the
recursion continues. -/
def spec_incremental_works {Config : Type} (beta : ℝ) (u : ℝ → Config → ℝ)
    (st : ℝ → Config → Config) (rv : Config → Config) (rethermalize : Bool) :
    ℝ → Config → List ℝ → List ℝ
  | _, _, [] => []
  | lam, x, lam' :: rest =>
    beta * (u lam' x - u lam x) ::
      spec_incremental_works beta u st rv rethermalize lam'
        (if rethermalize then rv (st lam' x) else st lam' x) rest

/-- The configuration after running the whole sub-schedule, defined
independently of the fold in `anneal`. -/
def spec_final_configuration {Config : Type}
    (st : ℝ → Config → Config) (rv : Config → Config) (rethermalize : Bool) :
    ℝ → Config → List ℝ → Config
  | _, x, [] => x
  | _, x, lam' :: rest =>
    spec_final_configuration st rv rethermalize lam'
      (if rethermalize then rv (st lam' x) else st lam' x) rest

lemma totalEngine_beta {Config : Type} (beta : ℝ) (u : ℝ → Config → ℝ)
    (st : ℝ → Config → Config) (rv : Config → Config) (ip : ℝ → Config → Config) :
    (totalEngine beta u st rv ip).beta = beta := rfl

lemma totalEngine_potential {Config : Type} (beta : ℝ) (u : ℝ → Config → ℝ)
    (st : ℝ → Config → Config) (rv : Config → Config) (ip : ℝ → Config → Config) :
    (totalEngine beta u st rv ip).potential = fun lam x => some (u lam x) := rfl

lemma totalEngine_stepDynamics {Config : Type} (beta : ℝ) (u : ℝ → Config → ℝ)
    (st : ℝ → Config → Config) (rv : Config → Config) (ip : ℝ → Config → Config) :
    (totalEngine beta u st rv ip).stepDynamics = fun lam x => some (st lam x) := rfl

lemma totalEngine_rethermalizeVel {Config : Type} (beta : ℝ) (u : ℝ → Config → ℝ)
    (st : ℝ → Config → Config) (rv : Config → Config) (ip : ℝ → Config → Config) :
    (totalEngine beta u st rv ip).rethermalizeVel = rv := rfl

lemma totalEngine_initialPropagate {Config : Type} (beta : ℝ) (u : ℝ → Config → ℝ)
    (st : ℝ → Config → Config) (rv : Config → Config) (ip : ℝ → Config → Config) :
    (totalEngine beta u st rv ip).initialPropagate = fun lam x => some (ip lam x) := rfl

lemma annealSteps_totalEngine {Config : Type} (beta : ℝ) (u : ℝ → Config → ℝ)
    (st : ℝ → Config → Config) (rv : Config → Config)
    (ip : ℝ → Config → Config) (rethermalize : Bool) :
    ∀ (ls : List ℝ) (lam : ℝ) (x : Config),
      annealSteps (totalEngine beta u st rv ip) rethermalize lam x ls
        = some (spec_incremental_works beta u st rv rethermalize lam x ls,
            spec_final_configuration st rv rethermalize lam x ls) := by
  intro ls
  induction ls with
  | nil => intro lam x; simp [annealSteps, spec_incremental_works, spec_final_configuration]
  | cons lam' rest ih =>
    intro lam x
    simp only [annealSteps, compute_incremental_work, totalEngine_potential,
      totalEngine_stepDynamics, totalEngine_rethermalizeVel, ih,
      spec_incremental_works, spec_final_configuration, totalEngine_beta,
      mul_sub]

lemma spec_incremental_works_length {Config : Type} (beta : ℝ)
    (u : ℝ → Config → ℝ) (st : ℝ → Config → Config) (rv : Config → Config)
    (rethermalize : Bool) :
    ∀ (ls : List ℝ) (lam : ℝ) (x : Config),
      (spec_incremental_works beta u st rv rethermalize lam x ls).length = ls.length := by
  intro ls
  induction ls with
  | nil => intro lam x; simp [spec_incremental_works]
  | cons lam' rest ih => intro lam x; simp [spec_incremental_works, ih]

/-- C1: on a schedule `lam0 :: rest` with a non-raising engine, `anneal`
returns exactly the specification's incremental-work schedule — each entry
is `β · (U(x; λ_next) − U(x; λ_cur))` with both reduced potentials taken on
the same configuration before it is propagated under the new lambda — and
the work array has one entry per lambda transition (`rest.length`), so the
initial-propagation step (taken before the loop when `initial_propagation`
is true) contributes no work entry. -/
theorem anneal_incremental_work_before_propagation {Config : Type} (beta : ℝ)
    (u : ℝ → Config → ℝ) (st : ℝ → Config → Config) (rv : Config → Config)
    (ip : ℝ → Config → Config) (x_init : Config) (lam0 : ℝ) (rest : List ℝ)
    (return_sampler_state rethermalize initial_propagation : Bool) :
    anneal (totalEngine beta u st rv ip) x_init (lam0 :: rest)
        return_sampler_state rethermalize initial_propagation
      = some (AnnealReturn.result
          (spec_incremental_works beta u st rv rethermalize lam0
            (if initial_propagation then ip lam0 x_init else x_init) rest)
          (if return_sampler_state then
            some (spec_final_configuration st rv rethermalize lam0
              (if initial_propagation then ip lam0 x_init else x_init) rest)
           else none)
          (some (List.replicate rest.length 0)))
    ∧ (spec_incremental_works beta u st rv rethermalize lam0
        (if initial_propagation then ip lam0 x_init else x_init) rest).length
      = rest.length := by
  constructor
  · cases initial_propagation <;>
      simp [anneal, totalEngine_initialPropagate, annealSteps_totalEngine]
  · exact spec_incremental_works_length beta u st rv rethermalize rest lam0 _

/-- C9: when a step of the per-lambda loop fails (an energy evaluation or a
propagation raising, `annealSteps` returning `none`), the whole `anneal`
call returns the fault value: no partial incremental-work array, no final
configuration and no timer. -/
theorem anneal_fault_on_step_failure {Config : Type} (E : AnnealEngine Config)
    (x_init x0 : Config) (lam0 : ℝ) (rest : List ℝ)
    (return_sampler_state rethermalize initial_propagation : Bool)
    (hstart : (if initial_propagation then E.initialPropagate lam0 x_init else some x_init) = some x0)
    (hfail : annealSteps E rethermalize lam0 x0 rest = none) :
    anneal E x_init (lam0 :: rest) return_sampler_state rethermalize initial_propagation
      = some AnnealReturn.fault := by
  simp only [anneal, hstart, hfail]

/-- A concrete engine over the one-point configuration space whose energy
evaluation always raises. -/
def failingEngine : AnnealEngine Unit :=
  ⟨1, fun _ _ => none, fun _ _ => none, id, fun _ x => some x⟩

/-- C9 witness: the always-raising engine, on the two-lambda schedule
`[0, 1]`, aborts with the fault value. -/
theorem anneal_fault_on_step_failure_witness :
    ((if true then failingEngine.initialPropagate 0 () else some ()) = some ())
    ∧ annealSteps failingEngine false 0 () [1] = none
    ∧ anneal failingEngine () [0, 1] false false true = some AnnealReturn.fault :=
  ⟨rfl, rfl, anneal_fault_on_step_failure failingEngine () () 0 [1] false false true rfl rfl⟩

/-!
SequentialMonteCarlo.binary_search (`smc.py` lines 905-979).  The pieces of
controller state the method touches are the alchemical parameters of
`self.thermodynamic_state` (written through `set_alchemical_parameters`,
abstracted as the scalar global lambda) and the sampler states it reads
energies from (never written).  `compute_reduced_potential` is abstracted
as `rp lam config`.
-/

/-- The mutable controller state visible to `binary_search`:
`self.thermodynamic_state`'s global alchemical lambda, and the particles'
sampler states. -/
structure TrailblazerState (Config : Type) where
  global_lambda : ℝ
  sampler_states : List Config

/-- `self.thermodynamic_state.set_alchemical_parameters(lam, ...)`: mutates
the thermodynamic state in place; nothing else changes. -/
def set_alchemical_parameters {Config : Type} (lam : ℝ)
    (st : TrailblazerState Config) : TrailblazerState Config :=
  { st with global_lambda := lam }

/-- The array `[compute_reduced_potential(thermodynamic_state, ss) for ss in
sampler_states]` at the thermodynamic state's current lambda. -/
def reduced_potentials {Config : Type} (rp : ℝ → Config → ℝ)
    (st : TrailblazerState Config) : List ℝ :=
  st.sampler_states.map (rp st.global_lambda)

/-- The `for _ in range(max_iterations)` loop of `binary_search`, with the
loop-carried Python locals (`start_val`, `end_val`, `midpoint`,
`_observable`) as arguments.  `_observable` starts as `none` because Python
leaves it unbound until the first iteration assigns it.  Each iteration
first sets the thermodynamic state to the midpoint (a mutation of the
controller state that the source never undoes). -/
def binary_search_loop {Config : Type} (rp : ℝ → Config → ℝ)
    (observable : List ℝ → List ℝ → ℝ) (cumulative_works current_rps : List ℝ)
    (observable_threshold base_end_val : ℝ) (precision_threshold : Option ℝ) :
    ℕ → ℝ → ℝ → ℝ → Option ℝ → TrailblazerState Config →
    TrailblazerState Config × ℝ × Option ℝ
  | 0, _, _, midpoint, last_observable, st => (st, midpoint, last_observable)
  | n + 1, start_val, end_val, midpoint, _, st =>
    let st1 := set_alchemical_parameters midpoint st
    let obs := observable cumulative_works
        (listSub (reduced_potentials rp st1) current_rps) / current_rps.length
    let start' := if obs ≤ observable_threshold then start_val else midpoint
    let end' := if obs ≤ observable_threshold then midpoint else end_val
    let mid' := (start' + end') * 0.5
    match precision_threshold with
    | none =>
      binary_search_loop rp observable cumulative_works current_rps
        observable_threshold base_end_val none n start' end' mid' (some obs) st1
    | some p =>
      if |base_end_val - mid'| ≤ p then
        let st2 := set_alchemical_parameters base_end_val st1
        (st2, base_end_val,
          some (observable cumulative_works
            (listSub (reduced_potentials rp st2) current_rps) / current_rps.length))
      else if |end' - start'| ≤ p then
        let st2 := set_alchemical_parameters end' st1
        (st2, end',
          some (observable cumulative_works
            (listSub (reduced_potentials rp st2) current_rps) / current_rps.length))
      else
        binary_search_loop rp observable cumulative_works current_rps
          observable_threshold base_end_val (some p) n start' end' mid' (some obs) st1

/-- `SequentialMonteCarlo.binary_search`: set the thermodynamic state to
`start_val`, cache the reduced potentials there, seed the midpoint from the
initial guess or the interval midpoint, and run the bisection loop.
Returns the (possibly mutated) controller state together with the
`(midpoint, _observable)` pair the Python method returns. -/
def binary_search {Config : Type} (rp : ℝ → Config → ℝ)
    (observable : List ℝ → List ℝ → ℝ) (st : TrailblazerState Config)
    (cumulative_works : List ℝ) (start_val end_val observable_threshold : ℝ)
    (max_iterations : ℕ) (initial_guess : Option ℝ)
    (precision_threshold : Option ℝ) :
    TrailblazerState Config × ℝ × Option ℝ :=
  let st0 := set_alchemical_parameters start_val st
  let current_rps := reduced_potentials rp st0
  let midpoint := match initial_guess with
    | some g => g
    | none => (start_val + end_val) * 0.5
  binary_search_loop rp observable cumulative_works current_rps
    observable_threshold end_val precision_threshold max_iterations
    start_val end_val midpoint none st0

/-- The normalized observable `binary_search` computes for a candidate
lambda `m` when the cached potentials were taken at `start_val` on the
sampler states `ss`: `observable(cumulative_works, U(m) - U(start)) / N`. -/
def candidate_observable {Config : Type} (rp : ℝ → Config → ℝ)
    (observable : List ℝ → List ℝ → ℝ) (cumulative_works : List ℝ)
    (ss : List Config) (start_val m : ℝ) : ℝ :=
  observable cumulative_works
    (listSub (ss.map (rp m)) (ss.map (rp start_val))) / ss.length

lemma reduced_potentials_set {Config : Type} (rp : ℝ → Config → ℝ) (lam : ℝ)
    (st : TrailblazerState Config) :
    reduced_potentials rp (set_alchemical_parameters lam st)
      = st.sampler_states.map (rp lam) := rfl

lemma binary_search_loop_terminus {Config : Type} (rp : ℝ → Config → ℝ)
    (observable : List ℝ → List ℝ → ℝ) (cumulative_works : List ℝ)
    (ss : List Config) (s0 e theta p : ℝ) (hp : 0 < p)
    (hobs : ∀ m, min s0 e ≤ m → m ≤ max s0 e →
      theta < candidate_observable rp observable cumulative_works ss s0 m) :
    ∀ (n : ℕ) (s mid : ℝ) (lastObs : Option ℝ) (st : TrailblazerState Config),
      st.sampler_states = ss →
      min s0 e ≤ s → s ≤ max s0 e → min s0 e ≤ mid → mid ≤ max s0 e →
      |e - mid| ≤ 2 ^ n * p →
      (binary_search_loop rp observable cumulative_works (ss.map (rp s0))
        theta e (some p) (n + 1) s e mid lastObs st).2.1 = e := by
  intro n
  induction n with
  | zero =>
    intro s mid lastObs st hss hs1 hs2 hm1 hm2 hbound
    have hkey : theta < candidate_observable rp observable cumulative_works ss s0 mid :=
      hobs mid hm1 hm2
    have hnotle : ¬ (observable cumulative_works
        (listSub (reduced_potentials rp (set_alchemical_parameters mid st))
          (ss.map (rp s0))) / (ss.map (rp s0)).length ≤ theta) := by
      rw [reduced_potentials_set, hss]
      simp only [List.length_map]
      exact not_le.mpr hkey
    have hsnap : |e - (mid + e) * 0.5| ≤ p := by
      have heq : |e - (mid + e) * 0.5| = |e - mid| / 2 := by
        rw [show e - (mid + e) * 0.5 = (e - mid) / 2 by ring, abs_div]
        norm_num
      have h1 : (2:ℝ) ^ 0 * p = p := by norm_num
      rw [heq]
      rw [h1] at hbound
      linarith
    simp only [binary_search_loop, hnotle, if_false, ite_false]
    rw [if_pos hsnap]
  | succ k ih =>
    intro s mid lastObs st hss hs1 hs2 hm1 hm2 hbound
    have hkey : theta < candidate_observable rp observable cumulative_works ss s0 mid :=
      hobs mid hm1 hm2
    have hnotle : ¬ (observable cumulative_works
        (listSub (reduced_potentials rp (set_alchemical_parameters mid st))
          (ss.map (rp s0))) / (ss.map (rp s0)).length ≤ theta) := by
      rw [reduced_potentials_set, hss]
      simp only [List.length_map]
      exact not_le.mpr hkey
    have he1 : min s0 e ≤ e := min_le_right _ _
    have he2 : e ≤ max s0 e := le_max_right _ _
    have hmid'1 : min s0 e ≤ (mid + e) * 0.5 := by
      have := add_le_add hm1 he1
      nlinarith
    have hmid'2 : (mid + e) * 0.5 ≤ max s0 e := by
      nlinarith [add_le_add hm2 he2]
    have hhalf : |e - (mid + e) * 0.5| ≤ 2 ^ k * p := by
      have heq : |e - (mid + e) * 0.5| = |e - mid| / 2 := by
        rw [show e - (mid + e) * 0.5 = (e - mid) / 2 by ring, abs_div]
        norm_num
      rw [heq]
      have h2 : (2:ℝ) ^ (k + 1) * p = 2 * (2 ^ k * p) := by ring
      rw [h2] at hbound
      linarith
    simp only [binary_search_loop, hnotle, if_false, ite_false]
    by_cases hc1 : |e - (mid + e) * 0.5| ≤ p
    · rw [if_pos hc1]
    · rw [if_neg hc1]
      by_cases hc2 : |e - mid| ≤ p
      · rw [if_pos hc2]
      · rw [if_neg hc2]
        apply ih
        · exact some (observable cumulative_works
            (listSub (reduced_potentials rp (set_alchemical_parameters mid st))
              (List.map (rp s0) ss)) / (List.map (rp s0) ss).length)
        · exact hss
        · exact hm1
        · exact hm2
        · exact hmid'1
        · exact hmid'2
        · exact hhalf

/-- C3: with the default `max_iterations = 20`, `precision_threshold =
1e-6` and no initial guess, on an interval of width at most one (any
interval between a lambda and its terminus), `binary_search` returns the
terminus `end_val` exactly whenever the normalized observable stays
strictly above the threshold everywhere on the interval. -/
theorem binary_search_returns_terminus {Config : Type} (rp : ℝ → Config → ℝ)
    (observable : List ℝ → List ℝ → ℝ) (st : TrailblazerState Config)
    (cumulative_works : List ℝ) (start_val end_val observable_threshold : ℝ)
    (hwidth : |end_val - start_val| ≤ 1)
    (hobs : ∀ m, min start_val end_val ≤ m → m ≤ max start_val end_val →
      observable_threshold < candidate_observable rp observable cumulative_works
        st.sampler_states start_val m) :
    (binary_search rp observable st cumulative_works start_val end_val
      observable_threshold 20 none (some 0.000001)).2.1 = end_val := by
  simp only [binary_search, reduced_potentials_set]
  have h20 : (20 : ℕ) = 19 + 1 := rfl
  rw [h20]
  refine binary_search_loop_terminus rp observable cumulative_works
    st.sampler_states start_val end_val observable_threshold 0.000001
    (by norm_num) hobs 19 start_val ((start_val + end_val) * 0.5) none
    (set_alchemical_parameters start_val st) rfl
    (min_le_left _ _) (le_max_left _ _) ?_ ?_ ?_
  · have h1 : min start_val end_val ≤ start_val := min_le_left _ _
    have h2 : min start_val end_val ≤ end_val := min_le_right _ _
    nlinarith
  · have h1 : start_val ≤ max start_val end_val := le_max_left _ _
    have h2 : end_val ≤ max start_val end_val := le_max_right _ _
    nlinarith
  · have heq : |end_val - (start_val + end_val) * 0.5| = |end_val - start_val| / 2 := by
      rw [show end_val - (start_val + end_val) * 0.5 = (end_val - start_val) / 2 by ring,
        abs_div]
      norm_num
    rw [heq]
    have : (2:ℝ) ^ 19 * 0.000001 = 0.524288 := by norm_num
    rw [this]
    linarith

/-- A concrete one-particle controller state sitting at global lambda 1/2. -/
def unitTrailState : TrailblazerState Unit := ⟨1/2, [()]⟩

/-- C3 witness: a constant observable equal to one, threshold zero, on the
unit interval, returns the terminus 1. -/
theorem binary_search_returns_terminus_witness :
    (|(1:ℝ) - 0| ≤ 1)
    ∧ (∀ m, min (0:ℝ) 1 ≤ m → m ≤ max (0:ℝ) 1 →
        (0:ℝ) < candidate_observable (fun _ _ => (0:ℝ)) (fun _ _ => (1:ℝ)) [0]
          unitTrailState.sampler_states 0 m)
    ∧ (binary_search (fun _ _ => (0:ℝ)) (fun _ _ => (1:ℝ))
        unitTrailState [0] 0 1 0 20 none (some 0.000001)).2.1 = 1 := by
  refine ⟨by norm_num, ?_, ?_⟩
  · intro m _ _
    norm_num [candidate_observable, unitTrailState]
  · exact binary_search_returns_terminus (fun _ _ => (0:ℝ)) (fun _ _ => (1:ℝ))
      unitTrailState [0] 0 1 0 (by norm_num)
      (by intro m _ _; norm_num [candidate_observable, unitTrailState])

lemma binary_search_loop_sampler_states {Config : Type} (rp : ℝ → Config → ℝ)
    (observable : List ℝ → List ℝ → ℝ) (cumulative_works current_rps : List ℝ)
    (observable_threshold base_end_val : ℝ) (precision_threshold : Option ℝ) :
    ∀ (n : ℕ) (start_val end_val midpoint : ℝ) (lastObs : Option ℝ)
      (st : TrailblazerState Config),
      (binary_search_loop rp observable cumulative_works current_rps
        observable_threshold base_end_val precision_threshold n
        start_val end_val midpoint lastObs st).1.sampler_states
        = st.sampler_states := by
  intro n
  induction n with
  | zero => intro s e mid lastObs st; rfl
  | succ k ih =>
    intro s e mid lastObs st
    cases precision_threshold with
    | none =>
      simp only [binary_search_loop]
      exact ih _ _ _ _ _
    | some p =>
      simp only [binary_search_loop]
      split
      · split
        · rfl
        · split
          · rfl
          · exact ih _ _ _ _ _
      · split
        · rfl
        · split
          · rfl
          · exact ih _ _ _ _ _

/-- C6 amended: `binary_search` never mutates any particle's sampler state —
the sampler states in the controller state after the call are exactly those
before it — even though it does mutate the controller's thermodynamic
state. -/
theorem binary_search_preserves_sampler_states {Config : Type}
    (rp : ℝ → Config → ℝ) (observable : List ℝ → List ℝ → ℝ)
    (st : TrailblazerState Config) (cumulative_works : List ℝ)
    (start_val end_val observable_threshold : ℝ) (max_iterations : ℕ)
    (initial_guess precision_threshold : Option ℝ) :
    (binary_search rp observable st cumulative_works start_val end_val
      observable_threshold max_iterations initial_guess
      precision_threshold).1.sampler_states = st.sampler_states := by
  simp only [binary_search]
  exact binary_search_loop_sampler_states rp observable cumulative_works _ _ _ _ _ _ _ _ _ _

/-- C6 counterexample: `binary_search` does mutate the Trailblazer's own
state.  It leaves the controller's thermodynamic state set to the last
lambda it evaluated instead of restoring it: starting from a controller
whose thermodynamic state sits at global lambda 1/2 and searching the
degenerate interval from 0 to 0, the call returns with the thermodynamic
state moved to lambda 0. -/
theorem binary_search_mutates_thermodynamic_state :
    (binary_search (fun _ _ => (0:ℝ)) (fun _ _ => (1:ℝ))
        unitTrailState [0] 0 0 0 20 none (some 0.000001)).1.global_lambda
      ≠ unitTrailState.global_lambda := by
  have h20 : (20 : ℕ) = 19 + 1 := rfl
  simp only [binary_search, h20]
  norm_num [binary_search_loop, set_alchemical_parameters, reduced_potentials,
    listSub, unitTrailState]

/-!
SequentialMonteCarlo._resample (`smc.py` lines 845-902): compute the
normalized observable, decide against the threshold, and either invoke the
resampling method on the total works (returning observable value 1.0) or
return the total works untouched with the identity index map.
-/

/-- `_resample` with the observable and the resampling method passed as the
functions the string keys select from `supported_observables` and
`supported_resampling_methods`.  `uniforms` is the stream of uniform draws
behind the resampling method's `np.random.choice`. -/
def smc_resample (observable : List ℝ → List ℝ → ℝ)
    (resampling_method : List ℝ → ℕ → (ℕ → ℝ) → List ℝ × List ℕ)
    (incremental_works cumulative_works : List ℝ)
    (resample_observable_threshold : ℝ) (uniforms : ℕ → ℝ) :
    ℝ × List ℝ × List ℕ :=
  let num_particles := incremental_works.length
  let normalized_observable_value :=
    observable cumulative_works incremental_works / num_particles
  let total_works := listAdd cumulative_works incremental_works
  if normalized_observable_value ≤ resample_observable_threshold then
    ((1 : ℝ), resampling_method total_works num_particles uniforms)
  else
    (normalized_observable_value, total_works, List.range num_particles)

/-- C7 (supporting theorem): `_resample` with the multinomial method
preserves the particle count — on both branches the returned works and
indices have exactly `N = len(incremental_works)` entries — and the
no-resample branch returns the total works untouched together with the
identity ancestry `range N`.  (The claim nevertheless fails at the
`sMC_anneal` call site, which reshapes these arrays through the undefined
names `num_actors_per_direction` and `num_particles_per_actor`.) -/
theorem resample_preserves_particle_count
    (observable : List ℝ → List ℝ → ℝ)
    (incremental_works cumulative_works : List ℝ)
    (threshold : ℝ) (uniforms : ℕ → ℝ)
    (hlen : cumulative_works.length = incremental_works.length) :
    (smc_resample observable multinomial_resample incremental_works
        cumulative_works threshold uniforms).2.1.length = incremental_works.length
    ∧ (smc_resample observable multinomial_resample incremental_works
        cumulative_works threshold uniforms).2.2.length = incremental_works.length
    ∧ (¬ observable cumulative_works incremental_works
          / incremental_works.length ≤ threshold →
        (smc_resample observable multinomial_resample incremental_works
          cumulative_works threshold uniforms).2.1
            = listAdd cumulative_works incremental_works
        ∧ (smc_resample observable multinomial_resample incremental_works
            cumulative_works threshold uniforms).2.2
              = List.range incremental_works.length) := by
  by_cases hc : observable cumulative_works incremental_works
      / incremental_works.length ≤ threshold
  · refine ⟨?_, ?_, fun hcontra => absurd hc hcontra⟩ <;>
      simp [smc_resample, hc, multinomial_resample]
  · refine ⟨?_, ?_, fun _ => ?_⟩ <;>
      simp [smc_resample, hc, listAdd, hlen]

/-- C7 witness at a concrete two-particle input that triggers the
resampling branch. -/
theorem resample_preserves_particle_count_witness :
    (([(0:ℝ), 0] : List ℝ).length = ([(0:ℝ), 0] : List ℝ).length)
    ∧ ((smc_resample (fun _ _ => 0) multinomial_resample [(0:ℝ), 0] [(0:ℝ), 0]
          (1/2) (fun _ => 0)).2.1.length = ([(0:ℝ), 0] : List ℝ).length
      ∧ (smc_resample (fun _ _ => 0) multinomial_resample [(0:ℝ), 0] [(0:ℝ), 0]
          (1/2) (fun _ => 0)).2.2.length = ([(0:ℝ), 0] : List ℝ).length
      ∧ (¬ (fun (_ : List ℝ) (_ : List ℝ) => (0:ℝ)) [(0:ℝ), 0] [(0:ℝ), 0]
            / ([(0:ℝ), 0] : List ℝ).length ≤ (1/2 : ℝ) →
          (smc_resample (fun _ _ => 0) multinomial_resample [(0:ℝ), 0] [(0:ℝ), 0]
            (1/2) (fun _ => 0)).2.1 = listAdd [(0:ℝ), 0] [(0:ℝ), 0]
          ∧ (smc_resample (fun _ _ => 0) multinomial_resample [(0:ℝ), 0] [(0:ℝ), 0]
              (1/2) (fun _ => 0)).2.2 = List.range ([(0:ℝ), 0] : List ℝ).length)) :=
  ⟨rfl, resample_preserves_particle_count (fun _ _ => 0) [(0:ℝ), 0] [(0:ℝ), 0]
    (1/2) (fun _ => 0) rfl⟩

/-!
SequentialMonteCarlo.sMC_anneal input validation (`smc.py` lines 374-444).
The validation prologue runs before the `while` loop; its raise/assert
statements become an `Except` error.  The per-direction membership assert
is vacuous once directions are the enum below.  The trailblaze dict's
keys-subset assert is likewise vacuous for the record embedding of the
dict.  The derived `starting_lines` and `finish_lines` bookkeeping carries
no error of its own and the claims do not touch it, so the validated value
keeps just the mode flags and the initialized protocols.
-/

/-- The two annealing directions. -/
inductive Direction where
  | forward : Direction
  | reverse : Direction
deriving DecidableEq

/-- The `trailblaze` argument dict: `{'criterion': str, 'threshold': float}`. -/
structure TrailblazeSpec where
  criterion : String
  threshold : ℝ

/-- The `resample` argument dict:
`{'criterion': str, 'method': str, 'threshold': float}`. -/
structure ResampleSpec where
  criterion : String
  method : String
  threshold : ℝ

/-- The errors the validation prologue of `sMC_anneal` can raise:
the explicit mutual-exclusivity `Exception` and the `assert` failures. -/
inductive SMCConfigError where
  | protocolKeysMismatch : SMCConfigError
  | protocolsAndTrailblaze : SMCConfigError
  | neitherProtocolNorTrailblaze : SMCConfigError
  | unsupportedResampleCriterion : SMCConfigError
  | unsupportedResampleMethod : SMCConfigError
deriving DecidableEq

/-- What survives validation: the `_trailblaze` and `_resample` flags and
the initialized `self.protocols`. -/
structure SMCValidated where
  trailblazing : Bool
  resampling : Bool
  protocols : List (Direction × List ℝ)

/-- Keys of `supported_observables` in `smc.py`. -/
def supported_observable_names : List String := ["ESS", "CESS"]

/-- Keys of `supported_resampling_methods` in `smc.py`. -/
def supported_resampling_method_names : List String := ["multinomial"]

/-- The origin of a direction's schedule (`starting_lines` when
trailblazing). -/
def starting_line : Direction → ℝ
  | Direction.forward => 0.0
  | Direction.reverse => 1.0

/-- Set equality of `set(protocols.keys()) == set(directions)`. -/
def keysMatch (ps : List (Direction × List ℝ)) (dirs : List Direction) : Bool :=
  (ps.map Prod.fst).all (fun d => dirs.contains d)
    && dirs.all (fun d => (ps.map Prod.fst).contains d)

/-- The `resample` checks of `smc.py` lines 436-441. -/
def checkResample (resample : Option ResampleSpec) (cfg : SMCValidated) :
    Except SMCConfigError SMCValidated :=
  match resample with
  | none => Except.ok { cfg with resampling := false }
  | some r =>
    if ¬ supported_observable_names.contains r.criterion then
      Except.error SMCConfigError.unsupportedResampleCriterion
    else if ¬ supported_resampling_method_names.contains r.method then
      Except.error SMCConfigError.unsupportedResampleMethod
    else Except.ok { cfg with resampling := true }

/-- The validation prologue of `sMC_anneal` (`smc.py` lines 410-441), in
source order: protocol keys against directions, then the explicit raise
when both a protocol dict and a trailblaze criterion are supplied, then
the requirement that at least one is supplied, then the resample checks. -/
def validate_sMC_inputs (protocols : Option (List (Direction × List ℝ)))
    (trailblaze : Option TrailblazeSpec) (resample : Option ResampleSpec)
    (directions : List Direction) : Except SMCConfigError SMCValidated :=
  match protocols with
  | some ps =>
    if ¬ keysMatch ps directions then
      Except.error SMCConfigError.protocolKeysMismatch
    else if trailblaze.isSome then
      Except.error SMCConfigError.protocolsAndTrailblaze
    else
      checkResample resample ⟨false, false, ps⟩
  | none =>
    match trailblaze with
    | none => Except.error SMCConfigError.neitherProtocolNorTrailblaze
    | some _ =>
      checkResample resample
        ⟨true, false, directions.map (fun d => (d, [starting_line d]))⟩

/-- `sMC_anneal` as validation followed by the iteration loop: the loop
body is abstract, because the claims about the prologue hold whatever the
loop does. -/
def sMC_anneal_run {Output : Type}
    (loop : SMCValidated → Except SMCConfigError Output)
    (protocols : Option (List (Direction × List ℝ)))
    (trailblaze : Option TrailblazeSpec) (resample : Option ResampleSpec)
    (directions : List Direction) : Except SMCConfigError Output :=
  match validate_sMC_inputs protocols trailblaze resample directions with
  | Except.error e => Except.error e
  | Except.ok cfg => loop cfg

lemma checkResample_ne_protocolsAndTrailblaze
    (resample : Option ResampleSpec) (cfg : SMCValidated) :
    checkResample resample cfg ≠ Except.error SMCConfigError.protocolsAndTrailblaze := by
  cases resample with
  | none => simp [checkResample]
  | some r =>
    simp only [checkResample]
    split
    · simp
    · split
      · simp
      · simp

/-- C8: supplying both a protocol dict and a trailblaze criterion makes
`sMC_anneal` raise the mutual-exclusivity configuration error during the
validation prologue, whatever the iteration loop would do — so before any
iteration executes; and whenever at most one of the two is supplied, the
mutual-exclusivity error is never raised. -/
theorem sMC_anneal_mutual_exclusivity {Output : Type}
    (loop : SMCValidated → Except SMCConfigError Output)
    (ps : List (Direction × List ℝ)) (tb : TrailblazeSpec)
    (optps : Option (List (Direction × List ℝ))) (opttb : Option TrailblazeSpec)
    (resample : Option ResampleSpec) (directions : List Direction) :
    (keysMatch ps directions = true →
      sMC_anneal_run loop (some ps) (some tb) resample directions
        = Except.error SMCConfigError.protocolsAndTrailblaze)
    ∧ ((optps = none ∨ opttb = none) →
      validate_sMC_inputs optps opttb resample directions
        ≠ Except.error SMCConfigError.protocolsAndTrailblaze) := by
  constructor
  · intro hkeys
    simp [sMC_anneal_run, validate_sMC_inputs, hkeys]
  · intro hone
    rcases hone with hps | htb
    · subst hps
      cases opttb with
      | none => simp [validate_sMC_inputs]
      | some tb' =>
        simp only [validate_sMC_inputs]
        exact checkResample_ne_protocolsAndTrailblaze _ _
    · subst htb
      cases optps with
      | none => simp [validate_sMC_inputs]
      | some ps' =>
        simp only [validate_sMC_inputs, Option.isSome_none, Bool.false_eq_true,
          if_false]
        split
        · simp
        · exact checkResample_ne_protocolsAndTrailblaze _ _

/-!
LambdaProtocol construction (`lambda_protocol.py` lines 39-195).  The
merged functions dict always carries exactly the nine required sub-lambda
functions (missing keys are filled from `default_functions` before any
assert runs), so it is embedded as a record of nine real functions.  The
constructor's asserts become a proposition: construction returns
successfully exactly when the proposition holds.  The monotonicity scan in
`_validate_functions` only logs a warning, so it does not appear in the
proposition.
-/

/-- The nine required sub-lambda functions of a `LambdaProtocol`. -/
structure LambdaFunctions where
  lambda_sterics_core : ℝ → ℝ
  lambda_electrostatics_core : ℝ → ℝ
  lambda_sterics_insert : ℝ → ℝ
  lambda_sterics_delete : ℝ → ℝ
  lambda_electrostatics_insert : ℝ → ℝ
  lambda_electrostatics_delete : ℝ → ℝ
  lambda_bonds : ℝ → ℝ
  lambda_angles : ℝ → ℝ
  lambda_torsions : ℝ → ℝ

/-- The iteration order of `required_functions` in `_validate_functions`. -/
def required_function_list (F : LambdaFunctions) : List (ℝ → ℝ) :=
  [F.lambda_sterics_core, F.lambda_electrostatics_core, F.lambda_sterics_insert,
   F.lambda_sterics_delete, F.lambda_electrostatics_insert,
   F.lambda_electrostatics_delete, F.lambda_bonds, F.lambda_angles,
   F.lambda_torsions]

/-- `np.linspace(start, stop, num)`: `num` evenly spaced points from
`start` to `stop` inclusive. -/
def np_linspace (start stop : ℝ) (num : ℕ) : List ℝ :=
  (List.range num).map (fun i => start + (stop - start) * i / ((num - 1 : ℕ) : ℝ))

/-- The asserts of `_validate_functions`: every required function starts at
0 and ends at 1 (monotonicity is only warned about, never asserted). -/
def validate_functions (F : LambdaFunctions) : Prop :=
  ∀ f ∈ required_function_list F, f 0 = 0 ∧ f 1 = 1

/-- The asserts of `_check_for_naked_charges` over `np.linspace(0., 1., 10)`:
nonzero inserted electrostatics need nonzero inserted sterics, and not-yet-
fully-deleted electrostatics need not-yet-fully-deleted sterics. -/
def check_naked_charges (F : LambdaFunctions) : Prop :=
  (∀ l ∈ np_linspace 0 1 10,
    F.lambda_electrostatics_insert l ≠ 0 → F.lambda_sterics_insert l ≠ 0)
  ∧ (∀ l ∈ np_linspace 0 1 10,
    F.lambda_electrostatics_delete l ≠ 1 → F.lambda_sterics_delete l ≠ 1)

/-- The `LambdaProtocol` constructor returns successfully exactly when all
its asserts pass. -/
def lambda_protocol_constructible (F : LambdaFunctions) : Prop :=
  validate_functions F ∧ check_naked_charges F

/-- The ten-point validation grid 0, 1/9, …, 8/9, 1 as the specification
reads it. -/
def validation_grid : List ℝ :=
  [0, 1/9, 2/9, 3/9, 4/9, 5/9, 6/9, 7/9, 8/9, 1]

/-- The claimed invariant of a successfully constructed protocol, spelled
out function by function over the explicit ten-point grid. -/
def lambda_protocol_spec_property (F : LambdaFunctions) : Prop :=
  (F.lambda_sterics_core 0 = 0 ∧ F.lambda_sterics_core 1 = 1)
  ∧ (F.lambda_electrostatics_core 0 = 0 ∧ F.lambda_electrostatics_core 1 = 1)
  ∧ (F.lambda_sterics_insert 0 = 0 ∧ F.lambda_sterics_insert 1 = 1)
  ∧ (F.lambda_sterics_delete 0 = 0 ∧ F.lambda_sterics_delete 1 = 1)
  ∧ (F.lambda_electrostatics_insert 0 = 0 ∧ F.lambda_electrostatics_insert 1 = 1)
  ∧ (F.lambda_electrostatics_delete 0 = 0 ∧ F.lambda_electrostatics_delete 1 = 1)
  ∧ (F.lambda_bonds 0 = 0 ∧ F.lambda_bonds 1 = 1)
  ∧ (F.lambda_angles 0 = 0 ∧ F.lambda_angles 1 = 1)
  ∧ (F.lambda_torsions 0 = 0 ∧ F.lambda_torsions 1 = 1)
  ∧ (∀ l ∈ validation_grid,
      F.lambda_electrostatics_insert l ≠ 0 → F.lambda_sterics_insert l ≠ 0)
  ∧ (∀ l ∈ validation_grid,
      F.lambda_electrostatics_delete l ≠ 1 → F.lambda_sterics_delete l ≠ 1)

lemma linspace_ten : np_linspace 0 1 10 = validation_grid := by
  simp only [np_linspace, validation_grid, List.range_succ, List.range_zero,
    List.map_append, List.map_cons, List.map_nil, List.nil_append,
    List.cons_append]
  norm_num

/-- C10: a `LambdaProtocol` constructor call returns successfully exactly
when every one of the nine required sub-lambda functions is 0 at 0 and 1 at
1 and the naked-charge implications hold at all ten grid points 0, 1/9, …,
1; monotonicity appears nowhere in the condition, so a non-monotone
sub-lambda function does not cause construction to fail. -/
theorem lambda_protocol_construction_iff (F : LambdaFunctions) :
    lambda_protocol_constructible F ↔ lambda_protocol_spec_property F := by
  simp only [lambda_protocol_constructible, validate_functions,
    check_naked_charges, lambda_protocol_spec_property, required_function_list,
    List.forall_mem_cons, List.not_mem_nil, linspace_ten]
  tauto

/-- The `default_functions` preset of `LambdaProtocol`. -/
def default_functions : LambdaFunctions where
  lambda_sterics_core := fun x => x
  lambda_electrostatics_core := fun x => x
  lambda_sterics_insert := fun x => if x < 0.5 then 2.0 * x else 1.0
  lambda_sterics_delete := fun x => if x < 0.5 then 0.0 else 2.0 * (x - 0.5)
  lambda_electrostatics_insert := fun x => if x < 0.5 then 0.0 else 2.0 * (x - 0.5)
  lambda_electrostatics_delete := fun x => if x < 0.5 then 2.0 * x else 1.0
  lambda_bonds := fun x => x
  lambda_angles := fun x => x
  lambda_torsions := fun x => x

/-- The default preset with a deliberately non-monotone bond schedule
(`2x² − x` dips below 0 before rising to 1). -/
def wiggly_bonds_functions : LambdaFunctions :=
  { default_functions with lambda_bonds := fun x => 2 * x ^ 2 - x }

/-- C10 witness: the non-monotone variant of the default preset still
constructs successfully (so monotonicity is not enforced), via the
characterization theorem. -/
theorem lambda_protocol_construction_iff_witness :
    lambda_protocol_constructible wiggly_bonds_functions
    ∧ wiggly_bonds_functions.lambda_bonds (1/4)
        < wiggly_bonds_functions.lambda_bonds 0 := by
  constructor
  · refine (lambda_protocol_construction_iff wiggly_bonds_functions).mpr ?_
    refine ⟨?_, ?_, ?_, ?_, ?_, ?_, ?_, ?_, ?_, ?_, ?_⟩
    · exact ⟨by norm_num [wiggly_bonds_functions, default_functions],
        by norm_num [wiggly_bonds_functions, default_functions]⟩
    · exact ⟨by norm_num [wiggly_bonds_functions, default_functions],
        by norm_num [wiggly_bonds_functions, default_functions]⟩
    · exact ⟨by norm_num [wiggly_bonds_functions, default_functions],
        by norm_num [wiggly_bonds_functions, default_functions]⟩
    · exact ⟨by norm_num [wiggly_bonds_functions, default_functions],
        by norm_num [wiggly_bonds_functions, default_functions]⟩
    · exact ⟨by norm_num [wiggly_bonds_functions, default_functions],
        by norm_num [wiggly_bonds_functions, default_functions]⟩
    · exact ⟨by norm_num [wiggly_bonds_functions, default_functions],
        by norm_num [wiggly_bonds_functions, default_functions]⟩
    · exact ⟨by norm_num [wiggly_bonds_functions, default_functions],
        by norm_num [wiggly_bonds_functions, default_functions]⟩
    · exact ⟨by norm_num [wiggly_bonds_functions, default_functions],
        by norm_num [wiggly_bonds_functions, default_functions]⟩
    · exact ⟨by norm_num [wiggly_bonds_functions, default_functions],
        by norm_num [wiggly_bonds_functions, default_functions]⟩
    · intro l hl
      simp only [validation_grid] at hl
      fin_cases hl <;> norm_num [wiggly_bonds_functions, default_functions]
    · intro l hl
      simp only [validation_grid] at hl
      fin_cases hl <;> norm_num [wiggly_bonds_functions, default_functions]
  · norm_num [wiggly_bonds_functions, default_functions]

end

end Perses
